import Mathlib

/-!
Verification of the news-bot ingestion pipeline (ibkr_news_bot_m3.py).

The development shallowly embeds the core of the program:
  * the seen-id store (load_seen_ids / save_seen_ids),
  * the timestamp renderer (short_time_ago),
  * the per-cycle fetch/dedup/publish loop (fetch_and_publish_news),
and proves the specified properties about these definitions.

Modelling conventions: Python strings are Lean String; Python sets of
strings are Finset String; file contents are Lean String; Python
exceptions that a given claim cares about are represented by explicit
outcome flags supplied by an environment record (ExtCalls), since the real
triggers (network, console I O) are outside the program text.
-/

/-- NewsTick models the raw news objects returned by the upstream source.
The Python code reads each field with getattr and a default, so an absent
field is identified with its default value here. -/
structure NewsTick where
  providerCode : String
  articleId : String
  headline : String
  timeStamp : Option Int
  extraData : String
deriving DecidableEq

/-- The dedup key built in fetch_and_publish_news line 152:
article_key = providerCode + ":" + articleId. -/
def article_key (nt : NewsTick) : String :=
  nt.providerCode ++ ":" ++ nt.articleId

/-! ## Timestamp rendering (short_time_ago, lines 93 to 106) -/

/-- Gregorian calendar date from a count of days since the Unix epoch,
the standard civil-from-days computation used to model what Python
datetime.fromtimestamp produces (year, month, day). -/
def civilFromDays (z0 : Int) : Int × Int × Int :=
  let z := z0 + 719468
  let era := Int.fdiv z 146097
  let doe := z - era * 146097
  let yoe := Int.fdiv (doe - Int.fdiv doe 1460 + Int.fdiv doe 36524 - Int.fdiv doe 146096) 365
  let y := yoe + era * 400
  let doy := doe - (365 * yoe + Int.fdiv yoe 4 - Int.fdiv yoe 100)
  let mp := Int.fdiv (5 * doy + 2) 153
  let d := doy - Int.fdiv (153 * mp + 2) 5 + 1
  let m := mp + (if mp < 10 then 3 else -9)
  (y + (if m ≤ 2 then 1 else 0), m, d)

/-- Two-digit zero padding used in the date-time rendering. -/
def pad2 (n : Int) : String :=
  if n < 10 then ("0") ++ toString n else toString n

/-- Model of datetime.isoformat with a space separator and second
precision, applied to an epoch-seconds value already shifted into the
local wall clock. -/
def isoFormat (t : Int) : String :=
  let days := Int.fdiv t 86400
  let sod := t - days * 86400
  let ymd := civilFromDays days
  toString ymd.1 ++ "-" ++ pad2 ymd.2.1 ++ "-" ++ pad2 ymd.2.2 ++ " " ++
    pad2 (Int.fdiv sod 3600) ++ ":" ++ pad2 (Int.fdiv (Int.emod sod 3600) 60) ++ ":" ++
    pad2 (Int.emod sod 60)

/-- Embedding of short_time_ago (lines 93 to 106).  The argument now is
the current epoch time in whole seconds; tz is the local utc offset in
seconds, which only influences the absolute date branch, exactly as both
datetime.now and datetime.fromtimestamp in the Python code are shifted by
the same local offset so that their difference is now minus ts. -/
def short_time_ago (tz now : Int) (ts : Option Int) : String :=
  match ts with
  | none => "unknown time"
  | some t =>
    if t = 0 then ("unknown time")
    else
      let s := now - t
      if s < 60 then toString s ++ "s ago"
      else if s < 3600 then toString (Int.fdiv s 60) ++ "m ago"
      else if s < 86400 then toString (Int.fdiv s 3600) ++ "h ago"
      else isoFormat (t + tz)

/-! ## Seen-id store (load_seen_ids lines 68 to 72, save_seen_ids lines 74 to 77) -/

/-- The whitespace set of Python str.strip (the CPython whitespace
table): the ASCII control characters 9 to 13 and 28 to 31, the space,
NEL 0x85, NBSP 0xA0, OGHAM SPACE MARK 0x1680, the general punctuation
spaces 0x2000 to 0x200A, LINE SEPARATOR 0x2028, PARAGRAPH SEPARATOR
0x2029, NARROW NBSP 0x202F, MEDIUM MATHEMATICAL SPACE 0x205F and
IDEOGRAPHIC SPACE 0x3000. -/
def isPySpace (c : Char) : Bool :=
  decide ((9 ≤ c.toNat ∧ c.toNat ≤ 13) ∨ (28 ≤ c.toNat ∧ c.toNat ≤ 31) ∨ c.toNat = 32 ∨
    c.toNat = 133 ∨ c.toNat = 160 ∨ c.toNat = 5760 ∨
    (8192 ≤ c.toNat ∧ c.toNat ≤ 8202) ∨ c.toNat = 8232 ∨ c.toNat = 8233 ∨
    c.toNat = 8239 ∨ c.toNat = 8287 ∨ c.toNat = 12288)

/-- Removal of leading and trailing whitespace characters from a
character list, modelling Python str.strip. -/
def stripChars (l : List Char) : List Char :=
  (((l.dropWhile isPySpace).reverse).dropWhile isPySpace).reverse

/-- Python str.strip on a Lean string. -/
def pyStrip (s : String) : String :=
  String.mk (stripChars s.data)

/-- Splitting a character stream at every newline, modelling iteration
over the lines of an opened text file (the trailing newline that Python
keeps on each line is immaterial because every line is stripped). -/
def splitLinesAux : List Char → List Char → List (List Char)
  | [], acc => [acc.reverse]
  | c :: rest, acc =>
    if c = '\n' then acc.reverse :: splitLinesAux rest []
    else splitLinesAux rest (c :: acc)

/-- The newline-delimited lines of a content string: the shape in which
save_seen_ids writes the file, one key then a line feed each. -/
def pyLines (s : String) : List String :=
  (splitLinesAux s.data []).map String.mk

/-- Universal-newline translation performed by a Python text-mode read:
a CRLF pair and a lone CR each become one LF.  The flag records whether
the previous character was a CR, in which case an immediately following
LF belongs to the already translated pair and is dropped. -/
def univAux : Bool → List Char → List Char
  | _, [] => []
  | prevCR, c :: rest =>
    if c = '\r' then '\n' :: univAux true rest
    else if c = '\n' then
      (if prevCR then univAux false rest else '\n' :: univAux false rest)
    else c :: univAux false rest

/-- File content as a Python text-mode read delivers it. -/
def univNewlines (l : List Char) : List Char := univAux false l

/-- The lines the program iterates over when reading the seen-id file:
universal-newline translation first, then a split at every line
feed. -/
def pyReadLines (s : String) : List String :=
  (splitLinesAux (univNewlines s.data) []).map String.mk

/-- The set comprehension in load_seen_ids line 72: the set of stripped,
non-empty lines of the file content as text-mode reading delivers
them. -/
def parseSeen (c : String) : Finset String :=
  (((pyReadLines c).map pyStrip).filter (fun l => l ≠ "")).toFinset

/-- State of the seen-id file as the process can encounter it: absent,
or present with a given text content; readOk records whether the read
system calls succeed, which is outside the program text. -/
inductive FileState
  | absent
  | present (content : String) (readOk : Bool)

/-- Embedding of load_seen_ids (lines 68 to 72).  The function checks
os.path.exists and returns the empty set for an absent file; it opens and
reads an existing file with no exception handler, so a failing read
propagates, modelled as Except.error. -/
def load_seen_ids : FileState → Except Unit (Finset String)
  | FileState.absent => Except.ok ∅
  | FileState.present c true => Except.ok (parseSeen c)
  | FileState.present _ false => Except.error ()

/-- Embedding of save_seen_ids (lines 74 to 77): the file content written
is each id of the set in ascending sorted order, each followed by a
newline. -/
def save_seen_ids (ids : Finset String) : String :=
  String.join ((ids.sort (· ≤ ·)).map (fun k => k ++ "\n"))

/-! ## Ingestion cycle (fetch_and_publish_news, lines 108 to 202) -/

/-- Configuration bits of the program that the cycle reads:
the local utc offset and current time used by short_time_ago, the
FETCH_ARTICLE_BODY toggle, and whether a Telegram session is configured
(session and TELEGRAM_BOT_TOKEN and TELEGRAM_CHAT_ID). -/
structure Config where
  tz : Int
  now : Int
  fetchBody : Bool
  telegramOn : Bool

/-- Outcomes of the external calls made while processing one item.
pubFail says the unguarded publish step for this item raises (for
example the console write); bodyFail says ib.reqNewsArticle raises;
notifyFail says the awaited Telegram post raises; body is the article
text returned when the body fetch succeeds. -/
structure ExtCalls where
  pubFail : String → NewsTick → Bool
  bodyFail : NewsTick → Bool
  notifyFail : NewsTick → Bool
  body : NewsTick → String

/-- The console block printed for one published item (lines 162 to 186):
a header, the headline, an optional extra line, and an optional truncated
body section, joined by newlines. -/
def renderItem (cfg : Config) (ext : ExtCalls) (symbol : String) (nt : NewsTick) : String :=
  let base := ["=== " ++ symbol ++ " | " ++ nt.providerCode ++ " | " ++
      short_time_ago cfg.tz cfg.now nt.timeStamp ++ " ===",
    "Headline: " ++ nt.headline]
  let withExtra := if nt.extraData = "" then base else base ++ ["Extra: " ++ nt.extraData]
  let withBody :=
    if cfg.fetchBody then
      if ext.bodyFail nt then withExtra
      else if ext.body nt = "" then withExtra
      else withExtra ++ ["--- Article body (truncated) ---", (ext.body nt).take 2000]
    else withExtra
  String.intercalate ("\n") withBody

/-- The condensed Telegram message for one item (line 192). -/
def tgText (cfg : Config) (symbol : String) (nt : NewsTick) : String :=
  symbol ++ " — " ++ nt.headline ++ "\n" ++ nt.providerCode ++ "\n" ++
    short_time_ago cfg.tz cfg.now nt.timeStamp

/-- Result of processing a list of ticks or a whole cycle: the seen set
after processing, the ticks successfully published (in order), the
console blocks printed, and the Telegram messages delivered. -/
structure ItemsResult where
  seen : Finset String
  pubs : List NewsTick
  console : List String
  tg : List String

/-- Embedding of the per-item loop of fetch_and_publish_news
(lines 150 to 197) for one symbol.  An already seen key is skipped; a
publish failure raises out of the loop to the per-symbol handler, so the
remaining ticks of this symbol are not processed and the key of the
failing item is not added; otherwise the item is printed, optionally
posted to Telegram (a posting failure is swallowed by the inner handler),
and its key is inserted before the next tick is examined.  Body-fetch
failures are swallowed at line 181 and only change the printed block. -/
def processTicks (cfg : Config) (ext : ExtCalls) (symbol : String) :
    List NewsTick → Finset String → ItemsResult
  | [], seen => ⟨seen, [], [], []⟩
  | nt :: rest, seen =>
    if article_key nt ∈ seen then processTicks cfg ext symbol rest seen
    else if ext.pubFail symbol nt then ⟨seen, [], [], []⟩
    else
      let r := processTicks cfg ext symbol rest (insert (article_key nt) seen)
      ⟨r.seen, nt :: r.pubs, renderItem cfg ext symbol nt :: r.console,
        (if cfg.telegramOn then
          (if ext.notifyFail nt then [] else [tgText cfg symbol nt])
         else []) ++ r.tg⟩

/-- One cycle over the ordered symbol list (the outer loop of
fetch_and_publish_news).  Each pair carries the symbol name and the
outcome of qualifying plus fetching for it: none means the fetch raised
or the contract could not be qualified, in which case the per-symbol
handler logs and the loop continues with the next symbol; some gives the
list of news ticks received. -/
def runCycle (cfg : Config) (ext : ExtCalls) :
    List (String × Option (List NewsTick)) → Finset String → ItemsResult
  | [], seen => ⟨seen, [], [], []⟩
  | (_, none) :: rest, seen => runCycle cfg ext rest seen
  | (sym, some ticks) :: rest, seen =>
    let r1 := processTicks cfg ext sym ticks seen
    let r2 := runCycle cfg ext rest r1.seen
    ⟨r2.seen, r1.pubs ++ r2.pubs, r1.console ++ r2.console, r1.tg ++ r2.tg⟩

/-- All ticks delivered by the upstream during a cycle, in fetch order;
a failed fetch delivers none. -/
def allTicks : List (String × Option (List NewsTick)) → List NewsTick
  | [] => []
  | (_, none) :: rest => allTicks rest
  | (_, some ticks) :: rest => ticks ++ allTicks rest

/-- The key set of a list of ticks. -/
def keysOf (l : List NewsTick) : Finset String :=
  (l.map article_key).toFinset

/-- Reference dedup filter: keep, in order, the first tick of each key
not yet seen.  Used to characterise what a failure-free cycle
publishes. -/
def dedupFirst (seen : Finset String) : List NewsTick → List NewsTick
  | [] => []
  | nt :: rest =>
    if article_key nt ∈ seen then dedupFirst seen rest
    else nt :: dedupFirst (insert (article_key nt) seen) rest

/-- Merge of two successive partial cycle results, used to state that
later symbols are processed independently of what happened on earlier
symbols. -/
def mergeR (a b : ItemsResult) : ItemsResult :=
  ⟨b.seen, a.pubs ++ b.pubs, a.console ++ b.console, a.tg ++ b.tg⟩

/-! ## Step lemmas for the cycle -/

theorem processTicks_nil (cfg : Config) (ext : ExtCalls) (sym : String) (seen : Finset String) :
    processTicks cfg ext sym [] seen = ⟨seen, [], [], []⟩ := rfl

theorem processTicks_skip (cfg : Config) (ext : ExtCalls) (sym : String) (nt : NewsTick)
    (rest : List NewsTick) (seen : Finset String) (hk : article_key nt ∈ seen) :
    processTicks cfg ext sym (nt :: rest) seen = processTicks cfg ext sym rest seen := by
  simp [processTicks, hk]

theorem processTicks_abort (cfg : Config) (ext : ExtCalls) (sym : String) (nt : NewsTick)
    (rest : List NewsTick) (seen : Finset String) (hk : article_key nt ∉ seen)
    (hp : ext.pubFail sym nt = true) :
    processTicks cfg ext sym (nt :: rest) seen = ⟨seen, [], [], []⟩ := by
  simp [processTicks, hk, hp]

theorem processTicks_go (cfg : Config) (ext : ExtCalls) (sym : String) (nt : NewsTick)
    (rest : List NewsTick) (seen : Finset String) (hk : article_key nt ∉ seen)
    (hp : ext.pubFail sym nt = false) :
    processTicks cfg ext sym (nt :: rest) seen =
      ⟨(processTicks cfg ext sym rest (insert (article_key nt) seen)).seen,
       nt :: (processTicks cfg ext sym rest (insert (article_key nt) seen)).pubs,
       renderItem cfg ext sym nt ::
         (processTicks cfg ext sym rest (insert (article_key nt) seen)).console,
       (if cfg.telegramOn then
          (if ext.notifyFail nt then [] else [tgText cfg sym nt])
        else []) ++ (processTicks cfg ext sym rest (insert (article_key nt) seen)).tg⟩ := by
  simp [processTicks, hk, hp]

theorem runCycle_nil (cfg : Config) (ext : ExtCalls) (seen : Finset String) :
    runCycle cfg ext [] seen = ⟨seen, [], [], []⟩ := rfl

theorem runCycle_skip (cfg : Config) (ext : ExtCalls) (sym : String)
    (rest : List (String × Option (List NewsTick))) (seen : Finset String) :
    runCycle cfg ext ((sym, none) :: rest) seen = runCycle cfg ext rest seen := rfl

theorem runCycle_cons (cfg : Config) (ext : ExtCalls) (sym : String) (ticks : List NewsTick)
    (rest : List (String × Option (List NewsTick))) (seen : Finset String) :
    runCycle cfg ext ((sym, some ticks) :: rest) seen =
      mergeR (processTicks cfg ext sym ticks seen)
        (runCycle cfg ext rest (processTicks cfg ext sym ticks seen).seen) := rfl

/-! ## Invariants of the cycle -/

theorem keysOf_nil : keysOf [] = ∅ := rfl

theorem keysOf_cons (nt : NewsTick) (l : List NewsTick) :
    keysOf (nt :: l) = insert (article_key nt) (keysOf l) := by
  simp [keysOf]

theorem keysOf_append (l l' : List NewsTick) : keysOf (l ++ l') = keysOf l ∪ keysOf l' := by
  simp [keysOf]

/-- Master invariant of the per-symbol loop: the final seen set is the
initial one plus exactly the keys of the published ticks; no key is
published twice; every published key was unseen at entry; every
published tick comes from the input list. -/
theorem processTicks_inv (cfg : Config) (ext : ExtCalls) (sym : String)
    (ticks : List NewsTick) : ∀ seen : Finset String,
    (processTicks cfg ext sym ticks seen).seen =
      seen ∪ keysOf (processTicks cfg ext sym ticks seen).pubs ∧
    ((processTicks cfg ext sym ticks seen).pubs.map article_key).Nodup ∧
    (∀ k ∈ (processTicks cfg ext sym ticks seen).pubs.map article_key, k ∉ seen) ∧
    (∀ nt ∈ (processTicks cfg ext sym ticks seen).pubs, nt ∈ ticks) := by
  induction ticks with
  | nil =>
    intro seen
    simp [processTicks_nil, keysOf_nil]
  | cons nt rest ih =>
    intro seen
    by_cases hk : article_key nt ∈ seen
    · obtain ⟨h1, h2, h3, h4⟩ := ih seen
      rw [processTicks_skip cfg ext sym nt rest seen hk]
      exact ⟨h1, h2, h3, fun x hx => List.mem_cons_of_mem _ (h4 x hx)⟩
    · by_cases hp : ext.pubFail sym nt = true
      · rw [processTicks_abort cfg ext sym nt rest seen hk hp]
        simp [keysOf_nil]
      · rw [Bool.not_eq_true] at hp
        obtain ⟨h1, h2, h3, h4⟩ := ih (insert (article_key nt) seen)
        rw [processTicks_go cfg ext sym nt rest seen hk hp]
        refine ⟨?_, ?_, ?_, ?_⟩
        · show (processTicks cfg ext sym rest (insert (article_key nt) seen)).seen =
            seen ∪ keysOf (nt :: (processTicks cfg ext sym rest
              (insert (article_key nt) seen)).pubs)
          rw [h1, keysOf_cons, Finset.union_insert, Finset.insert_union]
        · show (List.map article_key (nt :: _)).Nodup
          rw [List.map_cons]
          refine List.Nodup.cons ?_ h2
          intro hmem
          exact (h3 _ hmem) (Finset.mem_insert_self _ _)
        · intro k hk2
          rcases List.mem_cons.mp hk2 with h | h
          · subst h; exact hk
          · intro habs
            exact (h3 k h) (Finset.mem_insert_of_mem habs)
        · intro x hx
          rcases List.mem_cons.mp hx with h | h
          · subst h; exact List.mem_cons_self _ _
          · exact List.mem_cons_of_mem _ (h4 x h)

/-- Master invariant of a whole cycle, same statement as
processTicks_inv but across all symbols. -/
theorem runCycle_inv (cfg : Config) (ext : ExtCalls)
    (fetch : List (String × Option (List NewsTick))) : ∀ seen : Finset String,
    (runCycle cfg ext fetch seen).seen =
      seen ∪ keysOf (runCycle cfg ext fetch seen).pubs ∧
    ((runCycle cfg ext fetch seen).pubs.map article_key).Nodup ∧
    (∀ k ∈ (runCycle cfg ext fetch seen).pubs.map article_key, k ∉ seen) ∧
    (∀ nt ∈ (runCycle cfg ext fetch seen).pubs, nt ∈ allTicks fetch) := by
  induction fetch with
  | nil =>
    intro seen
    simp [runCycle_nil, keysOf_nil]
  | cons p rest ih =>
    intro seen
    obtain ⟨sym, oticks⟩ := p
    cases oticks with
    | none =>
      obtain ⟨h1, h2, h3, h4⟩ := ih seen
      rw [runCycle_skip]
      exact ⟨h1, h2, h3, fun x hx => by simpa [allTicks] using h4 x hx⟩
    | some ticks =>
      obtain ⟨p1, p2, p3, p4⟩ := processTicks_inv cfg ext sym ticks seen
      obtain ⟨h1, h2, h3, h4⟩ := ih (processTicks cfg ext sym ticks seen).seen
      rw [runCycle_cons]
      have hsub : seen ⊆ (processTicks cfg ext sym ticks seen).seen := by
        rw [p1]; exact Finset.subset_union_left
      refine ⟨?_, ?_, ?_, ?_⟩
      · show (runCycle cfg ext rest (processTicks cfg ext sym ticks seen).seen).seen =
          seen ∪ keysOf ((processTicks cfg ext sym ticks seen).pubs ++
            (runCycle cfg ext rest (processTicks cfg ext sym ticks seen).seen).pubs)
        rw [h1, p1, keysOf_append, Finset.union_assoc]
      · show (List.map article_key (_ ++ _)).Nodup
        rw [List.map_append]
        refine List.Nodup.append p2 h2 ?_
        intro k hk1 hk2
        apply h3 k hk2
        rw [p1]
        apply Finset.mem_union_right
        simpa [keysOf, List.mem_toFinset] using hk1
      · intro k hkm
        simp only [mergeR, List.map_append, List.mem_append] at hkm
        rcases hkm with h | h
        · exact p3 k h
        · intro habs
          exact (h3 k h) (hsub habs)
      · intro x hx
        simp only [mergeR, List.mem_append] at hx
        show x ∈ allTicks ((sym, some ticks) :: rest)
        simp only [allTicks, List.mem_append]
        rcases hx with h | h
        · exact Or.inl (p4 x h)
        · exact Or.inr (h4 x h)

/-- In a failure-free run of one symbol the final seen set absorbs the
keys of every delivered tick. -/
theorem processTicks_seen_noFail (cfg : Config) (ext : ExtCalls) (sym : String)
    (hnf : ∀ s nt, ext.pubFail s nt = false) (ticks : List NewsTick) :
    ∀ seen : Finset String,
    (processTicks cfg ext sym ticks seen).seen = seen ∪ keysOf ticks := by
  induction ticks with
  | nil =>
    intro seen
    simp [processTicks_nil, keysOf_nil]
  | cons nt rest ih =>
    intro seen
    by_cases hk : article_key nt ∈ seen
    · rw [processTicks_skip cfg ext sym nt rest seen hk, ih seen, keysOf_cons,
        Finset.union_insert, Finset.insert_eq_self.mpr (Finset.mem_union_left _ hk)]
    · rw [processTicks_go cfg ext sym nt rest seen hk (hnf sym nt)]
      show (processTicks cfg ext sym rest (insert (article_key nt) seen)).seen = _
      rw [ih (insert (article_key nt) seen), keysOf_cons, Finset.insert_union,
        Finset.union_insert]

/-- In a failure-free run of one symbol the published ticks are exactly
the first delivered tick of each previously unseen key, in order. -/
theorem processTicks_pubs_noFail (cfg : Config) (ext : ExtCalls) (sym : String)
    (hnf : ∀ s nt, ext.pubFail s nt = false) (ticks : List NewsTick) :
    ∀ seen : Finset String,
    (processTicks cfg ext sym ticks seen).pubs = dedupFirst seen ticks := by
  induction ticks with
  | nil =>
    intro seen
    simp [processTicks_nil, dedupFirst]
  | cons nt rest ih =>
    intro seen
    by_cases hk : article_key nt ∈ seen
    · rw [processTicks_skip cfg ext sym nt rest seen hk, ih seen]
      simp [dedupFirst, hk]
    · rw [processTicks_go cfg ext sym nt rest seen hk (hnf sym nt)]
      show nt :: (processTicks cfg ext sym rest (insert (article_key nt) seen)).pubs = _
      rw [ih (insert (article_key nt) seen)]
      simp [dedupFirst, hk]

/-- dedupFirst distributes over appending, threading the keys of the
first part into the seen set of the second. -/
theorem dedupFirst_append (l1 : List NewsTick) : ∀ (l2 : List NewsTick) (seen : Finset String),
    dedupFirst seen (l1 ++ l2) = dedupFirst seen l1 ++ dedupFirst (seen ∪ keysOf l1) l2 := by
  induction l1 with
  | nil =>
    intro l2 seen
    simp [dedupFirst, keysOf_nil]
  | cons nt rest ih =>
    intro l2 seen
    by_cases hk : article_key nt ∈ seen
    · simp only [List.cons_append, dedupFirst, if_pos hk, List.append_eq, ih, keysOf_cons,
        Finset.union_insert, Finset.insert_eq_self.mpr (Finset.mem_union_left _ hk)]
    · simp only [List.cons_append, dedupFirst, if_neg hk, List.append_eq, ih, keysOf_cons,
        List.cons_append, Finset.insert_union, Finset.union_insert]

/-- In a failure-free cycle the published ticks are exactly the first
delivered tick of each previously unseen key, across all symbols in
fetch order. -/
theorem runCycle_pubs_noFail (cfg : Config) (ext : ExtCalls)
    (hnf : ∀ s nt, ext.pubFail s nt = false)
    (fetch : List (String × Option (List NewsTick))) : ∀ seen : Finset String,
    (runCycle cfg ext fetch seen).pubs = dedupFirst seen (allTicks fetch) := by
  induction fetch with
  | nil =>
    intro seen
    simp [runCycle_nil, allTicks, dedupFirst]
  | cons p rest ih =>
    intro seen
    obtain ⟨sym, oticks⟩ := p
    cases oticks with
    | none => rw [runCycle_skip, ih seen]; rfl
    | some ticks =>
      rw [runCycle_cons]
      show (processTicks cfg ext sym ticks seen).pubs ++ _ = _
      rw [processTicks_pubs_noFail cfg ext sym hnf ticks seen,
        ih (processTicks cfg ext sym ticks seen).seen,
        processTicks_seen_noFail cfg ext sym hnf ticks seen]
      show _ = dedupFirst seen (ticks ++ allTicks rest)
      rw [dedupFirst_append]

/-- In a failure-free cycle the final seen set absorbs the keys of every
delivered tick. -/
theorem runCycle_seen_noFail (cfg : Config) (ext : ExtCalls)
    (hnf : ∀ s nt, ext.pubFail s nt = false)
    (fetch : List (String × Option (List NewsTick))) : ∀ seen : Finset String,
    (runCycle cfg ext fetch seen).seen = seen ∪ keysOf (allTicks fetch) := by
  induction fetch with
  | nil =>
    intro seen
    simp [runCycle_nil, allTicks, keysOf_nil]
  | cons p rest ih =>
    intro seen
    obtain ⟨sym, oticks⟩ := p
    cases oticks with
    | none => rw [runCycle_skip, ih seen]; rfl
    | some ticks =>
      rw [runCycle_cons]
      show (runCycle cfg ext rest (processTicks cfg ext sym ticks seen).seen).seen = _
      rw [ih, processTicks_seen_noFail cfg ext sym hnf ticks seen]
      show _ = seen ∪ keysOf (ticks ++ allTicks rest)
      rw [keysOf_append, Finset.union_assoc]

/-- A run over ticks whose keys are all already seen publishes nothing
and changes nothing. -/
theorem processTicks_allSeen (cfg : Config) (ext : ExtCalls) (sym : String)
    (ticks : List NewsTick) : ∀ seen : Finset String,
    (∀ nt ∈ ticks, article_key nt ∈ seen) →
    processTicks cfg ext sym ticks seen = ⟨seen, [], [], []⟩ := by
  induction ticks with
  | nil => intro seen _; rfl
  | cons nt rest ih =>
    intro seen h
    rw [processTicks_skip cfg ext sym nt rest seen (h nt (List.mem_cons_self _ _))]
    exact ih seen (fun x hx => h x (List.mem_cons_of_mem _ hx))

/-- A cycle over an upstream result whose keys are all already seen
publishes nothing and changes nothing. -/
theorem runCycle_allSeen (cfg : Config) (ext : ExtCalls)
    (fetch : List (String × Option (List NewsTick))) : ∀ seen : Finset String,
    (∀ nt ∈ allTicks fetch, article_key nt ∈ seen) →
    runCycle cfg ext fetch seen = ⟨seen, [], [], []⟩ := by
  induction fetch with
  | nil => intro seen _; rfl
  | cons p rest ih =>
    intro seen h
    obtain ⟨sym, oticks⟩ := p
    cases oticks with
    | none => rw [runCycle_skip]; exact ih seen h
    | some ticks =>
      have hticks : ∀ nt ∈ ticks, article_key nt ∈ seen := by
        intro x hx
        exact h x (by simp [allTicks, hx])
      have hrest : ∀ nt ∈ allTicks rest, article_key nt ∈ seen := by
        intro x hx
        exact h x (by simp [allTicks, hx])
      rw [runCycle_cons, processTicks_allSeen cfg ext sym ticks seen hticks]
      show mergeR _ (runCycle cfg ext rest seen) = _
      rw [ih seen hrest]
      rfl

/-- A cycle over a concatenated symbol list is the first part followed by
the second part run from the seen state the first part left behind:
whatever failures occur among the earlier symbols, the later symbols are
still fetched and processed. -/
theorem runCycle_append (cfg : Config) (ext : ExtCalls)
    (fs1 : List (String × Option (List NewsTick))) :
    ∀ (fs2 : List (String × Option (List NewsTick))) (seen : Finset String),
    runCycle cfg ext (fs1 ++ fs2) seen =
      mergeR (runCycle cfg ext fs1 seen)
        (runCycle cfg ext fs2 (runCycle cfg ext fs1 seen).seen) := by
  induction fs1 with
  | nil =>
    intro fs2 seen
    simp [runCycle_nil, mergeR]
  | cons p rest ih =>
    intro fs2 seen
    obtain ⟨sym, oticks⟩ := p
    cases oticks with
    | none =>
      rw [List.cons_append, runCycle_skip, runCycle_skip, ih]
    | some ticks =>
      rw [List.cons_append, runCycle_cons, runCycle_cons, ih]
      simp [mergeR, List.append_assoc]

/-- The seen set and the published ticks of a run depend only on the
publish failures: the body-fetch outcomes, the notifier outcomes, the
article bodies and the display configuration never influence them. -/
theorem processTicks_pubs_ext_irrel (cfg cfg2 : Config) (ext ext2 : ExtCalls) (sym : String)
    (hp : ∀ s nt, ext.pubFail s nt = ext2.pubFail s nt) (ticks : List NewsTick) :
    ∀ seen : Finset String,
    (processTicks cfg ext sym ticks seen).seen = (processTicks cfg2 ext2 sym ticks seen).seen ∧
    (processTicks cfg ext sym ticks seen).pubs = (processTicks cfg2 ext2 sym ticks seen).pubs := by
  induction ticks with
  | nil =>
    intro seen
    simp [processTicks_nil]
  | cons nt rest ih =>
    intro seen
    by_cases hk : article_key nt ∈ seen
    · rw [processTicks_skip cfg ext sym nt rest seen hk,
        processTicks_skip cfg2 ext2 sym nt rest seen hk]
      exact ih seen
    · by_cases hf : ext.pubFail sym nt = true
      · rw [processTicks_abort cfg ext sym nt rest seen hk hf,
          processTicks_abort cfg2 ext2 sym nt rest seen hk ((hp sym nt).symm.trans hf)]
        exact ⟨rfl, rfl⟩
      · rw [Bool.not_eq_true] at hf
        rw [processTicks_go cfg ext sym nt rest seen hk hf,
          processTicks_go cfg2 ext2 sym nt rest seen hk ((hp sym nt).symm.trans hf)]
        obtain ⟨h1, h2⟩ := ih (insert (article_key nt) seen)
        exact ⟨h1, by rw [h2]⟩

/-- Cycle-level version of processTicks_pubs_ext_irrel. -/
theorem runCycle_pubs_ext_irrel (cfg cfg2 : Config) (ext ext2 : ExtCalls)
    (hp : ∀ s nt, ext.pubFail s nt = ext2.pubFail s nt)
    (fetch : List (String × Option (List NewsTick))) :
    ∀ seen : Finset String,
    (runCycle cfg ext fetch seen).seen = (runCycle cfg2 ext2 fetch seen).seen ∧
    (runCycle cfg ext fetch seen).pubs = (runCycle cfg2 ext2 fetch seen).pubs := by
  induction fetch with
  | nil =>
    intro seen
    simp [runCycle_nil]
  | cons p rest ih =>
    intro seen
    obtain ⟨sym, oticks⟩ := p
    cases oticks with
    | none =>
      rw [runCycle_skip, runCycle_skip]
      exact ih seen
    | some ticks =>
      rw [runCycle_cons, runCycle_cons]
      obtain ⟨q1, q2⟩ := processTicks_pubs_ext_irrel cfg cfg2 ext ext2 sym hp ticks seen
      obtain ⟨h1, h2⟩ := ih (processTicks cfg2 ext2 sym ticks seen).seen
      refine ⟨?_, ?_⟩
      · show (runCycle cfg ext rest (processTicks cfg ext sym ticks seen).seen).seen =
          (runCycle cfg2 ext2 rest (processTicks cfg2 ext2 sym ticks seen).seen).seen
        rw [q1]
        exact h1
      · show (processTicks cfg ext sym ticks seen).pubs ++
            (runCycle cfg ext rest (processTicks cfg ext sym ticks seen).seen).pubs = _
        rw [q2, q1]
        exact congrArg _ h2

/-! ## Lemmas about the seen-id file encoding -/

/-- Concatenation of lines, each terminated by a newline, at the
character level. -/
def linesData : List (List Char) → List Char
  | [] => []
  | l :: ls => l ++ '\n' :: linesData ls

theorem save_foldl_data (L : List String) :
    ∀ s : String, ((L.map (fun k => k ++ "\n")).foldl (fun r t => r ++ t) s).data =
      s.data ++ linesData (L.map String.data) := by
  induction L with
  | nil => intro s; simp [linesData]
  | cons k L ih =>
    intro s
    rw [List.map_cons, List.foldl_cons, ih, List.map_cons]
    show (s ++ (k ++ "\n")).data ++ _ = _
    rw [String.data_append, String.data_append]
    simp [linesData]

/-- The character data written by save_seen_ids: each sorted key
followed by a newline. -/
theorem save_seen_ids_data (ids : Finset String) :
    (save_seen_ids ids).data = linesData ((ids.sort (· ≤ ·)).map String.data) := by
  show (((ids.sort (· ≤ ·)).map (fun k => k ++ "\n")).foldl (fun r t => r ++ t) "").data = _
  rw [save_foldl_data]
  rfl

theorem splitLinesAux_line (l : List Char) :
    ∀ (acc rest : List Char), '\n' ∉ l →
    splitLinesAux (l ++ '\n' :: rest) acc = (acc.reverse ++ l) :: splitLinesAux rest [] := by
  induction l with
  | nil =>
    intro acc rest _
    simp [splitLinesAux]
  | cons c cs ih =>
    intro acc rest h
    have hc : ¬(c = '\n') := fun habs => h (habs ▸ List.mem_cons_self c cs)
    show splitLinesAux (c :: (cs ++ '\n' :: rest)) acc = _
    rw [splitLinesAux]
    rw [if_neg hc, ih (c :: acc) rest (fun habs => h (List.mem_cons_of_mem c habs))]
    simp

/-- Splitting the concatenation of newline-terminated newline-free lines
recovers the lines, plus the empty tail after the final newline. -/
theorem splitLinesAux_linesData (L : List (List Char)) (h : ∀ l ∈ L, '\n' ∉ l) :
    splitLinesAux (linesData L) [] = L ++ [[]] := by
  induction L with
  | nil => rfl
  | cons l ls ih =>
    show splitLinesAux (l ++ '\n' :: linesData ls) [] = _
    rw [splitLinesAux_line l [] (linesData ls) (h l (List.mem_cons_self l ls)),
      ih (fun x hx => h x (List.mem_cons_of_mem l hx))]
    rfl

theorem string_mk_data (s : String) : String.mk s.data = s := rfl

/-- The lines of the file save_seen_ids writes are exactly the sorted
keys followed by one empty tail entry, provided no key contains a
newline character. -/
theorem pyLines_save (ids : Finset String) (h : ∀ k ∈ ids, '\n' ∉ k.data) :
    pyLines (save_seen_ids ids) = ids.sort (· ≤ ·) ++ [""] := by
  have hL : ∀ l ∈ (ids.sort (· ≤ ·)).map String.data, '\n' ∉ l := by
    intro l hl
    obtain ⟨k, hk, rfl⟩ := List.mem_map.mp hl
    exact h k ((Finset.mem_sort _).mp hk)
  show (splitLinesAux (save_seen_ids ids).data []).map String.mk = _
  rw [save_seen_ids_data, splitLinesAux_linesData _ hL, List.map_append, List.map_map]
  have : String.mk ∘ String.data = id := funext (fun s => string_mk_data s)
  rw [this, List.map_id]
  rfl

/-! ## Lemmas about stripping and parsing -/

theorem dropWhile_eq_self_of_head (p : Char → Bool) (l : List Char)
    (h : ∀ a, l.head? = some a → p a = false) : l.dropWhile p = l := by
  cases l with
  | nil => rfl
  | cons a t =>
    have ha := h a rfl
    rw [List.dropWhile_cons, if_neg (by simp [ha])]

theorem head_dropWhile_false (p : Char → Bool) (l : List Char) :
    ∀ a, (l.dropWhile p).head? = some a → p a = false := by
  induction l with
  | nil => intro a h; cases h
  | cons c t ih =>
    intro a h
    rw [List.dropWhile_cons] at h
    by_cases hc : p c = true
    · rw [if_pos hc] at h
      exact ih a h
    · rw [if_neg hc] at h
      cases h
      exact Bool.not_eq_true _ |>.mp hc

/-- Python str.strip is idempotent. -/
theorem stripChars_idem (l : List Char) : stripChars (stripChars l) = stripChars l := by
  have hA := head_dropWhile_false isPySpace l
  have hB := head_dropWhile_false isPySpace (l.dropWhile isPySpace).reverse
  have hsplit := List.takeWhile_append_dropWhile (p := isPySpace)
    (l := (l.dropWhile isPySpace).reverse)
  have hdecomp : l.dropWhile isPySpace =
      ((l.dropWhile isPySpace).reverse.dropWhile isPySpace).reverse ++
        ((l.dropWhile isPySpace).reverse.takeWhile isPySpace).reverse := by
    have := congrArg List.reverse hsplit
    rw [List.reverse_append, List.reverse_reverse] at this
    exact this.symm
  have hBrev : ∀ a, ((l.dropWhile isPySpace).reverse.dropWhile isPySpace).reverse.head? =
      some a → isPySpace a = false := by
    intro a ha
    apply hA
    rw [hdecomp, List.head?_append, ha]
    rfl
  show ((((stripChars l).dropWhile isPySpace).reverse).dropWhile isPySpace).reverse = _
  rw [show stripChars l = ((l.dropWhile isPySpace).reverse.dropWhile isPySpace).reverse from rfl]
  rw [dropWhile_eq_self_of_head isPySpace _ hBrev, List.reverse_reverse,
    dropWhile_eq_self_of_head isPySpace _ hB]

theorem mem_stripChars {x : Char} {l : List Char} (h : x ∈ stripChars l) : x ∈ l := by
  have h1 : x ∈ (l.dropWhile isPySpace).reverse.dropWhile isPySpace := by
    simpa [stripChars] using h
  have h2 : x ∈ (l.dropWhile isPySpace).reverse :=
    (List.dropWhile_sublist isPySpace).mem h1
  have h3 : x ∈ l.dropWhile isPySpace := List.mem_reverse.mp h2
  exact (List.dropWhile_sublist isPySpace).mem h3

theorem splitLinesAux_no_nl (cs : List Char) :
    ∀ acc : List Char, '\n' ∉ acc → ∀ l ∈ splitLinesAux cs acc, '\n' ∉ l := by
  induction cs with
  | nil =>
    intro acc hacc l hl
    rw [splitLinesAux] at hl
    rcases List.mem_singleton.mp hl with rfl
    simpa using hacc
  | cons c rest ih =>
    intro acc hacc l hl
    rw [splitLinesAux] at hl
    by_cases hc : c = '\n'
    · rw [if_pos hc] at hl
      rcases List.mem_cons.mp hl with rfl | h
      · simpa using hacc
      · exact ih [] (by simp) l h
    · rw [if_neg hc] at hl
      refine ih (c :: acc) ?_ l hl
      intro habs
      rcases List.mem_cons.mp habs with h | h
      · exact hc h.symm
      · exact hacc h

theorem univAux_no_cr (l : List Char) (h : '\r' ∉ l) : univAux false l = l := by
  induction l with
  | nil => rfl
  | cons c t ih =>
    have hc : ¬(c = '\r') := fun habs => h (habs ▸ List.mem_cons_self c t)
    have ht : '\r' ∉ t := fun habs => h (List.mem_cons_of_mem c habs)
    rw [univAux, if_neg hc]
    by_cases hn : c = '\n'
    · rw [if_pos hn, if_neg (by decide : ¬(false = true)), ih ht, hn]
    · rw [if_neg hn, ih ht]

theorem cr_not_mem_univAux : ∀ (b : Bool) (l : List Char), '\r' ∉ univAux b l := by
  intro b l
  induction l generalizing b with
  | nil => simp [univAux]
  | cons c t ih =>
    rw [univAux]
    by_cases hc : c = '\r'
    · rw [if_pos hc]
      intro habs
      rcases List.mem_cons.mp habs with h | h
      · exact absurd h (by decide)
      · exact ih true h
    · rw [if_neg hc]
      by_cases hn : c = '\n'
      · rw [if_pos hn]
        by_cases hb : b = true
        · rw [if_pos hb]
          exact ih false
        · rw [if_neg hb]
          intro habs
          rcases List.mem_cons.mp habs with h | h
          · exact absurd h (by decide)
          · exact ih false h
      · rw [if_neg hn]
        intro habs
        rcases List.mem_cons.mp habs with h | h
        · exact hc h.symm
        · exact ih false h

theorem cr_not_mem_linesData (L : List (List Char)) (h : ∀ l ∈ L, '\r' ∉ l) :
    '\r' ∉ linesData L := by
  induction L with
  | nil => simp [linesData]
  | cons l ls ih =>
    rw [linesData]
    intro habs
    rcases List.mem_append.mp habs with hm | hm
    · exact h l (List.mem_cons_self _ _) hm
    · rcases List.mem_cons.mp hm with he | hm2
      · exact absurd he (by decide)
      · exact ih (fun x hx => h x (List.mem_cons_of_mem _ hx)) hm2

theorem splitLinesAux_mem (cs : List Char) :
    ∀ (acc l : List Char), l ∈ splitLinesAux cs acc → ∀ x ∈ l, x ∈ cs ∨ x ∈ acc := by
  induction cs with
  | nil =>
    intro acc l hl x hx
    rw [splitLinesAux] at hl
    rcases List.mem_singleton.mp hl with rfl
    exact Or.inr (List.mem_reverse.mp hx)
  | cons c rest ih =>
    intro acc l hl x hx
    rw [splitLinesAux] at hl
    by_cases hc : c = '\n'
    · rw [if_pos hc] at hl
      rcases List.mem_cons.mp hl with rfl | h
      · exact Or.inr (List.mem_reverse.mp hx)
      · rcases ih [] l h x hx with h2 | h2
        · exact Or.inl (List.mem_cons_of_mem _ h2)
        · exact absurd h2 (List.not_mem_nil x)
    · rw [if_neg hc] at hl
      rcases ih (c :: acc) l hl x hx with h2 | h2
      · exact Or.inl (List.mem_cons_of_mem _ h2)
      · rcases List.mem_cons.mp h2 with rfl | h3
        · exact Or.inl (List.mem_cons_self _ _)
        · exact Or.inr h3

/-- On content with no carriage return the text-mode read delivers the
written lines unchanged. -/
theorem pyReadLines_eq_pyLines (s : String) (h : '\r' ∉ s.data) :
    pyReadLines s = pyLines s := by
  show (splitLinesAux (univAux false s.data) []).map String.mk = _
  rw [univAux_no_cr s.data h]
  rfl

/-- Every key produced by parsing a file content is a stripped,
non-empty string containing neither a line feed nor a carriage
return. -/
theorem parseSeen_good (c : String) :
    ∀ k ∈ parseSeen c, pyStrip k = k ∧ k ≠ "" ∧ '\n' ∉ k.data ∧ '\r' ∉ k.data := by
  intro k hk
  rw [parseSeen, List.mem_toFinset, List.mem_filter] at hk
  obtain ⟨hmem, hne⟩ := hk
  obtain ⟨s, hs, rfl⟩ := List.mem_map.mp hmem
  obtain ⟨l, hl, rfl⟩ := List.mem_map.mp hs
  have hnl : '\n' ∉ l := splitLinesAux_no_nl (univNewlines c.data) [] (by simp) l hl
  have hcr : '\r' ∉ l := by
    intro habs
    rcases splitLinesAux_mem (univNewlines c.data) [] l hl ('\r') habs with h2 | h2
    · exact cr_not_mem_univAux false c.data h2
    · exact absurd h2 (List.not_mem_nil _)
  refine ⟨?_, of_decide_eq_true hne, ?_, ?_⟩
  · show String.mk (stripChars (stripChars l)) = String.mk (stripChars l)
    exact congrArg String.mk (stripChars_idem l)
  · show ¬('\n' ∈ (String.mk (stripChars l)).data)
    intro habs
    exact hnl (mem_stripChars habs)
  · show ¬('\r' ∈ (String.mk (stripChars l)).data)
    intro habs
    exact hcr (mem_stripChars habs)

/-- Round trip of the store: parsing the file written for a set of
stripped, non-empty keys free of line feeds and carriage returns
recovers exactly that set. -/
theorem parseSeen_save (ids : Finset String)
    (h : ∀ k ∈ ids, pyStrip k = k ∧ k ≠ "" ∧ '\n' ∉ k.data ∧ '\r' ∉ k.data) :
    parseSeen (save_seen_ids ids) = ids := by
  have hnl : ∀ k ∈ ids, '\n' ∉ k.data := fun k hk => (h k hk).2.2.1
  have hcr : '\r' ∉ (save_seen_ids ids).data := by
    rw [save_seen_ids_data]
    apply cr_not_mem_linesData
    intro l hl
    obtain ⟨k, hk, rfl⟩ := List.mem_map.mp hl
    exact (h k ((Finset.mem_sort _).mp hk)).2.2.2
  have hread : pyReadLines (save_seen_ids ids) = pyLines (save_seen_ids ids) :=
    pyReadLines_eq_pyLines _ hcr
  have hmap : List.map pyStrip (ids.sort (· ≤ ·)) = ids.sort (· ≤ ·) := by
    have h2 : List.map pyStrip (ids.sort (· ≤ ·)) = List.map id (ids.sort (· ≤ ·)) :=
      List.map_congr_left (fun a ha => (h a ((Finset.mem_sort _).mp ha)).1)
    rw [h2, List.map_id]
  have hempty : List.map pyStrip [""] = [""] := rfl
  have hkeep : List.filter (fun l => decide (l ≠ "")) (ids.sort (· ≤ ·)) = ids.sort (· ≤ ·) :=
    List.filter_eq_self.mpr
      (fun a ha => decide_eq_true ((h a ((Finset.mem_sort _).mp ha)).2.1))
  have hdrop : List.filter (fun l => decide (l ≠ "")) [""] = [] := rfl
  rw [parseSeen, hread, pyLines_save ids hnl, List.map_append, hmap, hempty,
    List.filter_append, hkeep, hdrop, List.append_nil, Finset.sort_toFinset]

/-! ## Concrete data used in witnesses and counterexamples -/

/-- A well-formed ItemKey with an embedded newline in its provider part. -/
def badKey : String := "a\nb:1"

/-- Another newline-containing ItemKey. -/
def badKey2 : String := "x\ny:2"

/-- A small well-formed seen set. -/
def okSet : Finset String := insert ("BRN:1") {"DJ:2"}

/-- Some file content for the read-error scenario. -/
def someContent : String := "x:1\n"

/-! ## Claim C3: behaviour of load -/

/-- Claim C3 counterexample: at the concrete storage state where the
seen-id file exists but reading it fails, load_seen_ids propagates the
error instead of returning the empty set, refuting the claim that load
never raises and degrades any read error to the empty set. -/
theorem c3_load_error_counterexample :
    load_seen_ids (FileState.present someContent false) = Except.error () ∧
    load_seen_ids (FileState.present someContent false) ≠ Except.ok (∅ : Finset String) :=
  ⟨rfl, fun h => Except.noConfusion h⟩

/-- Claim C3 (amended): load returns the empty set when the file is
absent, and returns the set of stripped non-empty lines when the file
exists and reading succeeds; but an error while reading an existing file
propagates as an exception instead of degrading to the empty set,
because load_seen_ids installs no exception handler. -/
theorem c3_load_amended (c : String) :
    load_seen_ids FileState.absent = Except.ok (∅ : Finset String) ∧
    load_seen_ids (FileState.present c true) = Except.ok (parseSeen c) ∧
    load_seen_ids (FileState.present c false) = Except.error () :=
  ⟨rfl, rfl, rfl⟩

/-! ## Claim C4: persistence round trip -/

/-- Claim C4 counterexample: for the seen set holding the single ItemKey
with an embedded newline, loading the file produced by save yields a set
with different key membership, refuting the round trip for arbitrary
sets. -/
theorem c4_roundTrip_counterexample :
    load_seen_ids (FileState.present (save_seen_ids {badKey}) true) =
      Except.ok (parseSeen (save_seen_ids {badKey})) ∧
    parseSeen (save_seen_ids {badKey}) ≠ ({badKey} : Finset String) := by
  have hs : save_seen_ids {badKey} = badKey ++ "\n" := by
    rw [save_seen_ids, Finset.sort_singleton]
    rfl
  refine ⟨rfl, ?_⟩
  rw [hs]
  decide

/-- Claim C4 (amended): for every SeenSet whose keys are non-empty,
contain neither a line feed nor a carriage return (the read side
translates both line-break forms), and carry no leading or trailing
Python whitespace (true in particular of every set the program itself
loads), loading the file produced by save yields exactly the same key
membership; and saving the result of a load always reproduces an
equivalent stored set, because the keys a load produces are stripped,
non-empty and free of both line-break characters by construction. -/
theorem c4_roundTrip_amended :
    (∀ ids : Finset String,
      (∀ k ∈ ids, pyStrip k = k ∧ k ≠ "" ∧ '\n' ∉ k.data ∧ '\r' ∉ k.data) →
      load_seen_ids (FileState.present (save_seen_ids ids) true) = Except.ok ids) ∧
    (∀ c : String,
      load_seen_ids (FileState.present (save_seen_ids (parseSeen c)) true) =
        Except.ok (parseSeen c)) := by
  constructor
  · intro ids h
    show Except.ok (parseSeen (save_seen_ids ids)) = Except.ok ids
    rw [parseSeen_save ids h]
  · intro c
    show Except.ok (parseSeen (save_seen_ids (parseSeen c))) = Except.ok (parseSeen c)
    rw [parseSeen_save (parseSeen c) (parseSeen_good c)]

/-- Claim C4 witness: the round trip at the concrete two-element set. -/
theorem c4_roundTrip_amended_witness :
    load_seen_ids (FileState.present (save_seen_ids okSet) true) = Except.ok okSet :=
  c4_roundTrip_amended.1 okSet (by decide)

/-! ## Claim C8: shape of the saved file -/

/-- Claim C8 counterexample: for the set holding one ItemKey with an
embedded newline, the lines of the produced file are not the keys of the
set, refuting one-ItemKey-per-line for arbitrary sets. -/
theorem c8_save_counterexample :
    (pyLines (save_seen_ids {badKey2})).dropLast ≠ Finset.sort (· ≤ ·) {badKey2} := by
  have hs : save_seen_ids {badKey2} = badKey2 ++ "\n" := by
    rw [save_seen_ids, Finset.sort_singleton]
    rfl
  rw [hs, Finset.sort_singleton]
  decide

/-- Claim C8 (amended): for every set of newline-free keys, the file
save_seen_ids writes consists of exactly one key per line in ascending
sorted order with no repetitions, every line newline-terminated (the
split at newlines ends with an empty remainder), and the content is a
deterministic function of the key membership of the set. -/
theorem c8_save_amended (ids T : Finset String) (hnl : ∀ k ∈ ids, '\n' ∉ k.data) :
    (pyLines (save_seen_ids ids)).dropLast = ids.sort (· ≤ ·) ∧
    (pyLines (save_seen_ids ids)).getLast? = some ("") ∧
    List.Sorted (· ≤ ·) ((pyLines (save_seen_ids ids)).dropLast) ∧
    ((pyLines (save_seen_ids ids)).dropLast).Nodup ∧
    ((∀ k, k ∈ ids ↔ k ∈ T) → save_seen_ids ids = save_seen_ids T) := by
  have hp := pyLines_save ids hnl
  refine ⟨?_, ?_, ?_, ?_, ?_⟩
  · rw [hp, List.dropLast_concat]
  · rw [hp, List.getLast?_concat]
  · rw [hp, List.dropLast_concat]
    exact Finset.sort_sorted _ _
  · rw [hp, List.dropLast_concat]
    exact Finset.sort_nodup _ _
  · intro hmem
    have : ids = T := Finset.ext (fun a => hmem a)
    rw [this]

/-- Claim C8 witness: the file shape at the concrete two-element set. -/
theorem c8_save_amended_witness :
    (pyLines (save_seen_ids okSet)).dropLast = Finset.sort (· ≤ ·) okSet ∧
    (pyLines (save_seen_ids okSet)).getLast? = some ("") :=
  ⟨(c8_save_amended okSet okSet (by decide)).1,
   (c8_save_amended okSet okSet (by decide)).2.1⟩

/-! ## Branch lemmas for short_time_ago -/

theorem short_time_ago_s (tz now t : Int) (h0 : t ≠ 0) (h : now - t < 60) :
    short_time_ago tz now (some t) = toString (now - t) ++ "s ago" := by
  simp only [short_time_ago, if_neg h0, if_pos h]

theorem short_time_ago_m (tz now t : Int) (h0 : t ≠ 0) (h1 : 60 ≤ now - t)
    (h2 : now - t < 3600) :
    short_time_ago tz now (some t) = toString (Int.fdiv (now - t) 60) ++ "m ago" := by
  simp only [short_time_ago, if_neg h0, if_neg (by omega : ¬(now - t < 60)), if_pos h2]

theorem short_time_ago_h (tz now t : Int) (h0 : t ≠ 0) (h1 : 3600 ≤ now - t)
    (h2 : now - t < 86400) :
    short_time_ago tz now (some t) = toString (Int.fdiv (now - t) 3600) ++ "h ago" := by
  simp only [short_time_ago, if_neg h0, if_neg (by omega : ¬(now - t < 60)),
    if_neg (by omega : ¬(now - t < 3600)), if_pos h2]

theorem short_time_ago_abs (tz now t : Int) (h0 : t ≠ 0) (h1 : 86400 ≤ now - t) :
    short_time_ago tz now (some t) = isoFormat (t + tz) := by
  simp only [short_time_ago, if_neg h0, if_neg (by omega : ¬(now - t < 60)),
    if_neg (by omega : ¬(now - t < 3600)), if_neg (by omega : ¬(now - t < 86400))]

theorem append_s_ago_ne_unknown (a : String) : a ++ "s ago" ≠ "unknown time" := by
  intro h
  have hd := congrArg String.data h
  rw [String.data_append] at hd
  have h1 : (a.data ++ ("s ago").data).getLast? = some 'o' := by
    rw [List.getLast?_append_of_ne_nil _ (by decide : ("s ago").data ≠ [])]
    rfl
  rw [hd] at h1
  exact absurd h1 (by decide)

/-! ## Claim C6: timestamp rendering -/

/-- Claim C6: an absent or zero timestamp renders as unknown time; with
s the signed whole number of seconds from the event to now, the rendering
is s followed by an s-ago suffix when s is below 60, s div 60 minutes ago
when 60 le s lt 3600, s div 3600 hours ago when 3600 le s lt 86400, and
the absolute date-time string with second precision once s reaches a full
day. -/
theorem c6_timestamp_rendering (tz now t : Int) :
    short_time_ago tz now none = "unknown time" ∧
    short_time_ago tz now (some 0) = "unknown time" ∧
    (t ≠ 0 → now - t < 60 →
      short_time_ago tz now (some t) = toString (now - t) ++ "s ago") ∧
    (t ≠ 0 → 60 ≤ now - t → now - t < 3600 →
      short_time_ago tz now (some t) = toString (Int.fdiv (now - t) 60) ++ "m ago") ∧
    (t ≠ 0 → 3600 ≤ now - t → now - t < 86400 →
      short_time_ago tz now (some t) = toString (Int.fdiv (now - t) 3600) ++ "h ago") ∧
    (t ≠ 0 → 86400 ≤ now - t →
      short_time_ago tz now (some t) = isoFormat (t + tz)) :=
  ⟨rfl, rfl, short_time_ago_s tz now t, short_time_ago_m tz now t,
   short_time_ago_h tz now t, short_time_ago_abs tz now t⟩

/-- Claim C6 witness: thirty seconds before now renders as 30s ago, two
hours before now renders as 2h ago, an absent timestamp renders as
unknown time. -/
theorem c6_timestamp_rendering_witness :
    short_time_ago 0 100 (some 70) = "30s ago" ∧
    short_time_ago 0 10000 (some 2800) = "2h ago" ∧
    short_time_ago 0 50 none = "unknown time" := by
  refine ⟨?_, ?_, (c6_timestamp_rendering 0 50 1).1⟩
  · rw [(c6_timestamp_rendering 0 100 70).2.2.1 (by decide) (by decide)]
    decide
  · rw [(c6_timestamp_rendering 0 10000 2800).2.2.2.2.1 (by decide) (by decide) (by decide)]
    decide

/-! ## Claim C9: future timestamps -/

/-- Claim C9: a non-zero timestamp strictly in the future is not
rendered as unknown time; the signed difference is negative, hence below
60, and the result is that negative number of seconds followed by the
s-ago suffix. -/
theorem c9_future_timestamp (tz now t : Int) (h0 : t ≠ 0) (hf : now < t) :
    short_time_ago tz now (some t) = toString (now - t) ++ "s ago" ∧
    now - t < 0 ∧
    short_time_ago tz now (some t) ≠ "unknown time" := by
  have heq := short_time_ago_s tz now t h0 (by omega)
  exact ⟨heq, by omega, heq ▸ append_s_ago_ne_unknown (toString (now - t))⟩

/-- Claim C9 witness: a timestamp thirty seconds in the future renders
as -30s ago. -/
theorem c9_future_timestamp_witness :
    short_time_ago 0 100 (some 130) = "-30s ago" ∧
    short_time_ago 0 100 (some 130) ≠ "unknown time" := by
  have h := c9_future_timestamp 0 100 130 (by decide) (by decide)
  refine ⟨?_, h.2.2⟩
  rw [h.1]
  decide

/-! ## Concrete cycle scenarios -/

/-- Configuration used in concrete scenarios. -/
def cfgW : Config := ⟨0, 1000, false, false⟩

/-- The spec scenario item: provider BRN, articleId 1, headline A. -/
def tickA : NewsTick := ⟨"BRN", "1", "A", none, ""⟩

/-- An item with the same provider and articleId as tickA but different
other fields. -/
def tickA2 : NewsTick := ⟨"BRN", "1", "A2", some 5, "other"⟩

/-- A second distinct item. -/
def tickB : NewsTick := ⟨"DJ", "7", "B", none, ""⟩

/-- A third distinct item. -/
def tickC : NewsTick := ⟨"RTR", "9", "C", none, ""⟩

/-- An item with both provider and articleId empty. -/
def eTick1 : NewsTick := ⟨"", "", "x", none, ""⟩

/-- Another item with both provider and articleId empty but a different
headline. -/
def eTick2 : NewsTick := ⟨"", "", "y", none, ""⟩

/-- External calls that all succeed. -/
def extOk : ExtCalls := ⟨fun _ _ => false, fun _ => false, fun _ => false, fun _ => ""⟩

/-- External calls where publishing tickB raises. -/
def extFailB : ExtCalls := ⟨fun _ nt => nt == tickB, fun _ => false, fun _ => false, fun _ => ""⟩

/-- External calls where publishing tickA raises. -/
def extFailA : ExtCalls := ⟨fun _ nt => nt == tickA, fun _ => false, fun _ => false, fun _ => ""⟩

/-- The spec scenario upstream: AAPL delivers tickA, TSLA delivers
nothing. -/
def fetchW : List (String × Option (List NewsTick)) := [("AAPL", some [tickA]), ("TSLA", some [])]

/-- An upstream delivering two items with the same key. -/
def fetchDup : List (String × Option (List NewsTick)) := [("AAPL", some [tickA, tickA2])]

/-- An upstream delivering tickA then tickB for one symbol. -/
def fetchXY : List (String × Option (List NewsTick)) := [("AAPL", some [tickA, tickB])]

/-- An upstream where AAPL delivers tickA then tickC and TSLA delivers
tickB. -/
def fetchFail : List (String × Option (List NewsTick)) :=
  [("AAPL", some [tickA, tickC]), ("TSLA", some [tickB])]

/-- An upstream delivering the two empty-field items for one symbol. -/
def fetchE : List (String × Option (List NewsTick)) := [("AAPL", some [eTick1, eTick2])]

/-! ## Claim C1: dedup correctness -/

/-- Claim C1: items with identical provider and articleId map to the
same ItemKey regardless of their other fields; within a cycle no key is
published twice and nothing whose key is already in the seen set is
published; keys are never removed from the seen set; and in a
failure-free cycle exactly the first delivered item of each unseen key
is published, in fetch order. -/
theorem c1_dedup_correctness (cfg : Config) (ext : ExtCalls)
    (fetch : List (String × Option (List NewsTick))) (seen0 : Finset String)
    (n1 n2 : NewsTick) :
    (n1.providerCode = n2.providerCode → n1.articleId = n2.articleId →
      article_key n1 = article_key n2) ∧
    ((runCycle cfg ext fetch seen0).pubs.map article_key).Nodup ∧
    (∀ nt ∈ (runCycle cfg ext fetch seen0).pubs, article_key nt ∉ seen0) ∧
    seen0 ⊆ (runCycle cfg ext fetch seen0).seen ∧
    ((∀ s nt, ext.pubFail s nt = false) →
      (runCycle cfg ext fetch seen0).pubs = dedupFirst seen0 (allTicks fetch)) := by
  obtain ⟨h1, h2, h3, _⟩ := runCycle_inv cfg ext fetch seen0
  refine ⟨?_, h2, ?_, ?_, ?_⟩
  · intro hp ha
    rw [article_key, article_key, hp, ha]
  · intro nt hnt
    exact h3 (article_key nt) (List.mem_map_of_mem _ hnt)
  · rw [h1]
    exact Finset.subset_union_left
  · intro hnf
    exact runCycle_pubs_noFail cfg ext hnf fetch seen0

/-- Claim C1 witness: the two items sharing provider BRN and articleId 1
share a key, and the concrete duplicate-key cycle publishes exactly the
first of them. -/
theorem c1_dedup_correctness_witness :
    article_key tickA = article_key tickA2 ∧
    (runCycle cfgW extOk fetchDup ∅).pubs = dedupFirst ∅ (allTicks fetchDup) := by
  have h := c1_dedup_correctness cfgW extOk fetchDup ∅ tickA tickA2
  exact ⟨h.1 rfl rfl, h.2.2.2.2 (fun _ _ => rfl)⟩

/-! ## Claim C2: mark-seen ordering -/

/-- Claim C2: the key of a successfully published item is inserted into
the seen set before the next item is processed (the loop continues on the
remaining ticks with the key already inserted); consequently, when the
publish of X succeeded and the publish of Y failed in the same cycle and
the key of Y was neither already seen nor published elsewhere in the
cycle, the set handed to the save at the end of the cycle contains the
key of X and not the key of Y. -/
theorem c2_mark_seen_ordering (cfg : Config) (ext : ExtCalls) (sym : String)
    (nt : NewsTick) (rest : List NewsTick) (seen : Finset String)
    (fetch : List (String × Option (List NewsTick))) (seen0 : Finset String)
    (kX kY : String)
    (hk : article_key nt ∉ seen) (hp : ext.pubFail sym nt = false) :
    ((processTicks cfg ext sym (nt :: rest) seen).pubs =
      nt :: (processTicks cfg ext sym rest (insert (article_key nt) seen)).pubs ∧
     (processTicks cfg ext sym (nt :: rest) seen).seen =
      (processTicks cfg ext sym rest (insert (article_key nt) seen)).seen) ∧
    (kX ∈ (runCycle cfg ext fetch seen0).pubs.map article_key →
     kY ∉ seen0 →
     kY ∉ (runCycle cfg ext fetch seen0).pubs.map article_key →
     kX ∈ (runCycle cfg ext fetch seen0).seen ∧
     kY ∉ (runCycle cfg ext fetch seen0).seen) := by
  constructor
  · rw [processTicks_go cfg ext sym nt rest seen hk hp]
    exact ⟨rfl, rfl⟩
  · intro hX hY0 hYp
    obtain ⟨h1, _, _, _⟩ := runCycle_inv cfg ext fetch seen0
    constructor
    · rw [h1]
      apply Finset.mem_union_right
      rw [keysOf]
      exact List.mem_toFinset.mpr hX
    · rw [h1]
      intro habs
      rcases Finset.mem_union.mp habs with h | h
      · exact hY0 h
      · rw [keysOf] at h
        exact hYp (List.mem_toFinset.mp h)

/-- Claim C2 witness: in the concrete cycle where tickA publishes and
tickB then fails, the final seen set contains the key of tickA and not
the key of tickB. -/
theorem c2_mark_seen_ordering_witness :
    article_key tickA ∈ (runCycle cfgW extFailB fetchXY ∅).seen ∧
    article_key tickB ∉ (runCycle cfgW extFailB fetchXY ∅).seen := by
  have h := c2_mark_seen_ordering cfgW extFailB ("AAPL") tickA [tickB] ∅ fetchXY ∅
    (article_key tickA) (article_key tickB) (by decide) (by decide)
  exact h.2 (by decide) (by decide) (by decide)

/-! ## Claim C5: cycle idempotence -/

/-- Claim C5: with an unchanged upstream result and no publish failures,
a second run of the cycle publishes nothing, no key is published twice
across the two runs combined, and the first run publishes exactly the
previously unseen keys among the delivered items. -/
theorem c5_cycle_idempotent (cfg : Config) (ext : ExtCalls)
    (fetch : List (String × Option (List NewsTick))) (seen0 : Finset String)
    (hnf : ∀ s nt, ext.pubFail s nt = false) :
    (runCycle cfg ext fetch (runCycle cfg ext fetch seen0).seen).pubs = [] ∧
    (((runCycle cfg ext fetch seen0).pubs ++
      (runCycle cfg ext fetch (runCycle cfg ext fetch seen0).seen).pubs).map
        article_key).Nodup ∧
    (∀ k, k ∈ (runCycle cfg ext fetch seen0).pubs.map article_key ↔
      (k ∉ seen0 ∧ k ∈ (allTicks fetch).map article_key)) := by
  have hseen := runCycle_seen_noFail cfg ext hnf fetch seen0
  have hall : ∀ nt ∈ allTicks fetch,
      article_key nt ∈ (runCycle cfg ext fetch seen0).seen := by
    intro nt hnt
    rw [hseen]
    apply Finset.mem_union_right
    rw [keysOf]
    exact List.mem_toFinset.mpr (List.mem_map_of_mem _ hnt)
  have hrun2 := runCycle_allSeen cfg ext fetch _ hall
  obtain ⟨h1, h2, h3, h4⟩ := runCycle_inv cfg ext fetch seen0
  refine ⟨by rw [hrun2], ?_, ?_⟩
  · rw [hrun2]
    simpa using h2
  · intro k
    constructor
    · intro hk
      obtain ⟨nt, hnt, rfl⟩ := List.mem_map.mp hk
      exact ⟨h3 _ (List.mem_map_of_mem _ hnt), List.mem_map_of_mem _ (h4 nt hnt)⟩
    · rintro ⟨hk0, hkall⟩
      have hk1 : k ∈ (runCycle cfg ext fetch seen0).seen := by
        rw [hseen]
        apply Finset.mem_union_right
        rw [keysOf]
        exact List.mem_toFinset.mpr hkall
      rw [h1] at hk1
      rcases Finset.mem_union.mp hk1 with h | h
      · exact absurd h hk0
      · rw [keysOf] at h
        exact List.mem_toFinset.mp h

/-- Claim C5 witness: in the spec scenario, the key BRN:1 is published
by the first run and the second run publishes nothing. -/
theorem c5_cycle_idempotent_witness :
    (runCycle cfgW extOk fetchW (runCycle cfgW extOk fetchW ∅).seen).pubs = [] ∧
    article_key tickA ∈ (runCycle cfgW extOk fetchW ∅).pubs.map article_key := by
  have h := c5_cycle_idempotent cfgW extOk fetchW ∅ (fun _ _ => rfl)
  exact ⟨h.1, (h.2.2 (article_key tickA)).mpr ⟨by decide, by decide⟩⟩

/-! ## Claim C7: error isolation -/

/-- Claim C7 counterexample: in the concrete cycle where publishing
tickA raises, the fresh item tickC of the same symbol AAPL (whose own
publish would succeed) is neither published nor marked seen, so a
failure on one item does prevent the remaining items of that symbol from
being processed; the later symbol TSLA is still published. -/
theorem c7_isolation_counterexample :
    tickC ∈ allTicks fetchFail ∧
    extFailA.pubFail ("AAPL") tickA = true ∧
    extFailA.pubFail ("AAPL") tickC = false ∧
    article_key tickC ∉ (∅ : Finset String) ∧
    tickC ∉ (runCycle cfgW extFailA fetchFail ∅).pubs ∧
    article_key tickC ∉ (runCycle cfgW extFailA fetchFail ∅).seen ∧
    tickB ∈ (runCycle cfgW extFailA fetchFail ∅).pubs := by
  decide

/-- Claim C7 (amended): failures never cross a symbol boundary: the
symbols after any prefix are always processed, from the seen state the
prefix left behind, and a symbol whose fetch or qualification raised is
simply skipped; within a symbol, body-fetch failures and notifier
failures are isolated per item (they never influence which items are
published or marked seen); but an exception in the unguarded publish
step of one item aborts the remaining items of that symbol for the
current cycle, leaving the seen set as it was before the failing
item. -/
theorem c7_error_isolation_amended (cfg : Config) (ext ext2 : ExtCalls) (sym : String)
    (nt : NewsTick) (rest : List NewsTick)
    (fs1 fs2 : List (String × Option (List NewsTick))) (seen : Finset String) :
    runCycle cfg ext (fs1 ++ fs2) seen =
      mergeR (runCycle cfg ext fs1 seen)
        (runCycle cfg ext fs2 (runCycle cfg ext fs1 seen).seen) ∧
    runCycle cfg ext ((sym, none) :: fs2) seen = runCycle cfg ext fs2 seen ∧
    ((∀ s m, ext.pubFail s m = ext2.pubFail s m) →
      (runCycle cfg ext fs2 seen).seen = (runCycle cfg ext2 fs2 seen).seen ∧
      (runCycle cfg ext fs2 seen).pubs = (runCycle cfg ext2 fs2 seen).pubs) ∧
    (article_key nt ∉ seen → ext.pubFail sym nt = true →
      processTicks cfg ext sym (nt :: rest) seen = ⟨seen, [], [], []⟩) := by
  refine ⟨runCycle_append cfg ext fs1 fs2 seen, runCycle_skip cfg ext sym fs2 seen, ?_, ?_⟩
  · intro hp
    exact runCycle_pubs_ext_irrel cfg cfg ext ext2 hp fs2 seen
  · intro hk hp
    exact processTicks_abort cfg ext sym nt rest seen hk hp

/-- Claim C7 witness: the amended statement at the concrete failing
cycle, symbol append decomposition and per-item abort instantiated. -/
theorem c7_error_isolation_amended_witness :
    runCycle cfgW extFailA ([("AAPL", some [tickA, tickC])] ++ [("TSLA", some [tickB])]) ∅ =
      mergeR (runCycle cfgW extFailA [("AAPL", some [tickA, tickC])] ∅)
        (runCycle cfgW extFailA [("TSLA", some [tickB])]
          (runCycle cfgW extFailA [("AAPL", some [tickA, tickC])] ∅).seen) ∧
    processTicks cfgW extFailA ("AAPL") (tickA :: [tickC]) ∅ = ⟨∅, [], [], []⟩ := by
  have h := c7_error_isolation_amended cfgW extFailA extFailA ("AAPL") tickA [tickC]
    [("AAPL", some [tickA, tickC])] [("TSLA", some [tickB])] ∅
  exact ⟨h.1, h.2.2.2 (by decide) (by decide)⟩

/-! ## Claim C10: items with empty provider and articleId -/

theorem nodup_const_length_le_one (l : List String) (a : String)
    (hnd : l.Nodup) (hall : ∀ x ∈ l, x = a) : l.length ≤ 1 := by
  cases l with
  | nil => simp
  | cons x t =>
    cases t with
    | nil => simp
    | cons y u =>
      exfalso
      have hx := hall x (List.mem_cons_self _ _)
      have hy := hall y (List.mem_cons_of_mem _ (List.mem_cons_self _ _))
      have hmem := (List.nodup_cons.mp hnd).1
      exact hmem ((hx.trans hy.symm) ▸ List.mem_cons_self y u)

/-- Claim C10: an item whose provider and articleId are both empty gets
the key of a bare colon; at most one such item is published per cycle;
once one of them has been published its key is in the seen set, and a
cycle started with that key already seen publishes no such item at all,
in particular none is published in any later cycle of the process. -/
theorem c10_empty_fields_key (cfg cfg2 : Config) (ext ext2 : ExtCalls)
    (fetch fetch2 : List (String × Option (List NewsTick))) (seen0 : Finset String)
    (nt : NewsTick) :
    (nt.providerCode = "" → nt.articleId = "" → article_key nt = ":") ∧
    (((runCycle cfg ext fetch seen0).pubs.filter
        (fun m => m.providerCode == "" && m.articleId == "")).length ≤ 1) ∧
    (∀ m ∈ (runCycle cfg ext fetch seen0).pubs, m.providerCode = "" → m.articleId = "" →
      ":" ∈ (runCycle cfg ext fetch seen0).seen) ∧
    (":" ∈ seen0 → ∀ m ∈ (runCycle cfg ext fetch seen0).pubs,
      ¬(m.providerCode = "" ∧ m.articleId = "")) ∧
    (∀ m ∈ (runCycle cfg ext fetch seen0).pubs, m.providerCode = "" → m.articleId = "" →
      ∀ m2 ∈ (runCycle cfg2 ext2 fetch2 (runCycle cfg ext fetch seen0).seen).pubs,
        ¬(m2.providerCode = "" ∧ m2.articleId = "")) := by
  have hkey : ∀ m : NewsTick, m.providerCode = "" → m.articleId = "" →
      article_key m = ":" := by
    intro m hp ha
    rw [article_key, hp, ha]
    rfl
  obtain ⟨h1, h2, h3, _⟩ := runCycle_inv cfg ext fetch seen0
  have hpubseen : ∀ m ∈ (runCycle cfg ext fetch seen0).pubs,
      article_key m ∈ (runCycle cfg ext fetch seen0).seen := by
    intro m hm
    rw [h1]
    apply Finset.mem_union_right
    rw [keysOf]
    exact List.mem_toFinset.mpr (List.mem_map_of_mem _ hm)
  refine ⟨hkey nt, ?_, ?_, ?_, ?_⟩
  · have hsub : (((runCycle cfg ext fetch seen0).pubs.filter
        (fun m => m.providerCode == "" && m.articleId == "")).map article_key).Sublist
        ((runCycle cfg ext fetch seen0).pubs.map article_key) :=
      List.Sublist.map article_key (List.filter_sublist _)
    have hnd := h2.sublist hsub
    have hconst : ∀ x ∈ ((runCycle cfg ext fetch seen0).pubs.filter
        (fun m => m.providerCode == "" && m.articleId == "")).map article_key, x = ":" := by
      intro x hx
      obtain ⟨m, hm, rfl⟩ := List.mem_map.mp hx
      obtain ⟨_, hpm⟩ := List.mem_filter.mp hm
      rw [Bool.and_eq_true, beq_iff_eq, beq_iff_eq] at hpm
      exact hkey m hpm.1 hpm.2
    have := nodup_const_length_le_one _ (":") hnd hconst
    rwa [List.length_map] at this
  · intro m hm hp ha
    have := hpubseen m hm
    rwa [hkey m hp ha] at this
  · rintro hin m hm ⟨hp, ha⟩
    have := h3 (article_key m) (List.mem_map_of_mem _ hm)
    rw [hkey m hp ha] at this
    exact this hin
  · rintro m hm hp ha m2 hm2 ⟨hp2, ha2⟩
    obtain ⟨_, _, g3, _⟩ := runCycle_inv cfg2 ext2 fetch2 (runCycle cfg ext fetch seen0).seen
    have hseen1 : ":" ∈ (runCycle cfg ext fetch seen0).seen := by
      have := hpubseen m hm
      rwa [hkey m hp ha] at this
    have := g3 (article_key m2) (List.mem_map_of_mem _ hm2)
    rw [hkey m2 hp2 ha2] at this
    exact this hseen1

/-- Claim C10 witness: the first empty-field item maps to the bare colon
key, and after the concrete cycle that publishes it the bare colon key is
in the seen set. -/
theorem c10_empty_fields_key_witness :
    article_key eTick1 = ":" ∧
    ":" ∈ (runCycle cfgW extOk fetchE ∅).seen := by
  have h := c10_empty_fields_key cfgW cfgW extOk extOk fetchE fetchE ∅ eTick1
  exact ⟨h.1 rfl rfl, h.2.2.1 eTick1 (by decide) rfl rfl⟩
